import Mathlib

/-!
Shallow embedding of the `simple_store` repository (files `store.py` and
`shopping_cart.py`): a catalog (`Store`) holding a fixed list of items and a
per-session `ShoppingCart`, with substring search, hashtag search, relevance
ranking against the cart contents, add/remove mediation and checkout.

Python methods that can mutate the receiver are translated as functions from
the receiver state to a pair of the new state and an optional raised error;
the `raise` statements of the source occur before any mutation, which the
translation reflects by returning the state reached at the raise point.
Read-only methods return their result paired with the post-call state.
-/

namespace SimpleStore

/-- Modelled from the spec: the `Item` data class (file `item.py` is not among
the sources; only its use sites are).  Per the spec it is an immutable value
with `name`, `price` (integer), `hashtags` and `description`, and two items are
equal iff all four fields match (value equality, not identity). -/
structure Item where
  name : String
  price : Int
  hashtags : List String
  description : String
deriving DecidableEq

/-- Modelled from the spec: the error classes of `errors.py` (not among the
sources): `ItemNotExistError`, `TooManyMatchesError`, `ItemAlreadyExistsError`. -/
inductive Err where
  | ItemNotExistError
  | TooManyMatchesError
  | ItemAlreadyExistsError
deriving DecidableEq

/-- `needle` is a prefix of `hay` (on character lists). -/
def prefixOfChars : List Char → List Char → Bool
  | [], _ => true
  | _ :: _, [] => false
  | a :: as, b :: bs => a == b && prefixOfChars as bs

/-- `needle` occurs as a contiguous substring of `hay` (on character lists). -/
def subOfChars (needle : List Char) : List Char → Bool
  | [] => needle.isEmpty
  | c :: rest => prefixOfChars needle (c :: rest) || subOfChars needle rest

/-- Python's `needle in hay` on strings: contiguous substring containment. -/
def strIn (needle hay : String) : Bool :=
  subOfChars needle.data hay.data

/-- `shopping_cart.py`, class `ShoppingCart`: its one attribute `items`. -/
structure ShoppingCart where
  items : List Item
deriving DecidableEq

namespace ShoppingCart

/-- `ShoppingCart.add_item` (shopping_cart.py): raise `ItemAlreadyExistsError`
if the item is already in `self.items` (value equality), else append it. -/
def add_item (cart : ShoppingCart) (item : Item) : ShoppingCart × Option Err :=
  if item ∈ cart.items then (cart, some .ItemAlreadyExistsError)
  else ({ items := cart.items ++ [item] }, none)

/-- `ShoppingCart.remove_item` (shopping_cart.py): scan `self.items` in order,
on the first item whose name contains `item_name` call `list.remove` (which
deletes the first element equal to it) and return; raise `ItemNotExistError`
if the loop finds no match. -/
def remove_item (cart : ShoppingCart) (item_name : String) :
    ShoppingCart × Option Err :=
  match cart.items.find? (fun item => strIn item_name item.name) with
  | some item => ({ items := cart.items.erase item }, none)
  | none => (cart, some .ItemNotExistError)

/-- `ShoppingCart.get_subtotal` (shopping_cart.py): sum of the prices of the
items in the cart. -/
def get_subtotal (cart : ShoppingCart) : Int :=
  (cart.items.map (fun item => item.price)).sum

end ShoppingCart

/-- `store.py`, class `Store`: attributes `_items` and `_shopping_cart`. -/
structure Store where
  _items : List Item
  _shopping_cart : ShoppingCart
deriving DecidableEq

namespace Store

/-- `Store.get_items` (store.py): return `self._items`. -/
def get_items (s : Store) : List Item × Store :=
  (s._items, s)

/-- `Store.compute_rate` (store.py): collect every hashtag of every cart item
into one list, build its `Counter`, and pair each item of `items_list` with the
sum of the counter values of its own hashtags (skipping, as the source's
filter does, hashtags absent from the cart list). -/
def compute_rate (s : Store) (items_list : List Item) : List (Nat × Item) :=
  let list_of_hashtags :=
    s._shopping_cart.items.flatMap (fun item => item.hashtags)
  items_list.map (fun item =>
    (((item.hashtags.filter (fun tag => list_of_hashtags.contains tag)).map
        (fun tag => list_of_hashtags.count tag)).sum, item))

/-- `Store.sort_by_rate` (store.py): stable-sort the items by name ascending,
then stable-sort the `(rate, item)` pairs from `compute_rate` by rate
descending (`reverse=True`), and project the items back out. -/
def sort_by_rate (s : Store) (items_list : List Item) : List Item :=
  let sorted_by_name := items_list.mergeSort (fun a b => decide (a.name ≤ b.name))
  let sorted_by_rate :=
    (s.compute_rate sorted_by_name).mergeSort (fun t u => decide (u.1 ≤ t.1))
  sorted_by_rate.map (fun t => t.2)

/-- `Store.search_by_name` (store.py): the items whose name contains
`item_name` and that are not in the shopping cart, ranked by `sort_by_rate`. -/
def search_by_name (s : Store) (item_name : String) : List Item × Store :=
  let my_items := s._items.filter
    (fun item => strIn item_name item.name && !(s._shopping_cart.items.contains item))
  (s.sort_by_rate my_items, s)

/-- `Store.search_by_hashtag` (store.py): the items whose hashtag list contains
`hashtag` and that are not in the shopping cart, ranked by `sort_by_rate`. -/
def search_by_hashtag (s : Store) (hashtag : String) : List Item × Store :=
  let my_hashtags := s._items.filter
    (fun item => item.hashtags.contains hashtag && !(s._shopping_cart.items.contains item))
  (s.sort_by_rate my_hashtags, s)

/-- `Store.add_item` (store.py): filter the catalog by name fragment; raise
`ItemNotExistError` on zero matches, `TooManyMatchesError` on more than one,
else delegate the unique match to `ShoppingCart.add_item`. -/
def add_item (s : Store) (item_name : String) : Store × Option Err :=
  match s._items.filter (fun item => strIn item_name item.name) with
  | [] => (s, some .ItemNotExistError)
  | [m] =>
    let r := s._shopping_cart.add_item m
    ({ s with _shopping_cart := r.1 }, r.2)
  | _ :: _ :: _ => (s, some .TooManyMatchesError)

/-- `Store.remove_item` (store.py): filter the cart (not the catalog) by name
fragment; raise `TooManyMatchesError` on more than one match, else delegate
the same fragment to `ShoppingCart.remove_item`. -/
def remove_item (s : Store) (item_name : String) : Store × Option Err :=
  let my_items := s._shopping_cart.items.filter (fun item => strIn item_name item.name)
  if 1 < my_items.length then (s, some .TooManyMatchesError)
  else
    let r := s._shopping_cart.remove_item item_name
    ({ s with _shopping_cart := r.1 }, r.2)

/-- `Store.checkout` (store.py): return `self._shopping_cart.get_subtotal()`. -/
def checkout (s : Store) : Int × Store :=
  (s._shopping_cart.get_subtotal, s)

/-- The rate of a candidate item, as the spec words it: the sum, over every
entry of the item's own hashtag list (repeats counted separately), of the
number of occurrences of that hashtag across the hashtag lists of all items
currently in the cart. -/
def rate (s : Store) (item : Item) : Nat :=
  (item.hashtags.map
    (fun tag => (s._shopping_cart.items.flatMap (fun it => it.hashtags)).count tag)).sum

/-- The composite-key reference comparator from the spec: rate descending,
ties broken by name ascending. -/
def rankLE (s : Store) (a b : Item) : Bool :=
  decide (s.rate b < s.rate a) || (decide (s.rate a = s.rate b) && decide (a.name ≤ b.name))

end Store

/-- Concrete sample item used to instantiate the theorems. -/
def itemApple : Item := ⟨"Apple", 3, ["fruit", "sweet"], "an apple"⟩

/-- Concrete sample item used to instantiate the theorems. -/
def itemBread : Item := ⟨"Bread", 5, ["bake"], "a loaf"⟩

/-- Concrete sample item used to instantiate the theorems. -/
def itemMilk : Item := ⟨"Milk", 2, ["dairy", "sweet"], "a bottle"⟩

/-- Concrete sample store used to instantiate the theorems. -/
def sampleStore : Store := ⟨[itemApple, itemBread, itemMilk], ⟨[itemMilk]⟩⟩

/-- Combination of two Boolean comparators into one: compare by the primary
comparator `p`, and break `p`-ties (both directions of `p` hold) by the
secondary comparator `q`. -/
def lexComp {α : Type} (p q : α → α → Bool) : α → α → Bool :=
  fun a b => if p a b && p b a then q a b else p a b

/-! ## Basic lemmas about the substring test -/

theorem subOfChars_nil_left : ∀ hay : List Char, subOfChars [] hay = true
  | [] => rfl
  | _ :: _ => by simp [subOfChars, prefixOfChars]

theorem strIn_empty_left (s : String) : strIn "" s = true :=
  subOfChars_nil_left s.data

/-! ## C8: ShoppingCart.add_item -/

/-- C8: adding an item already present in the cart (by value equality) fails
with `ItemAlreadyExistsError` and leaves the cart's contents unchanged; adding
an absent item appends it at the end, preserving the order of the others. -/
theorem cart_add_item_spec (cart : ShoppingCart) (item : Item) :
    (item ∈ cart.items → cart.add_item item = (cart, some Err.ItemAlreadyExistsError))
    ∧ (item ∉ cart.items → cart.add_item item = (⟨cart.items ++ [item]⟩, none)) := by
  constructor <;> intro h <;> simp [ShoppingCart.add_item, h]

/-- Witness for C8 at concrete carts. -/
theorem cart_add_item_spec_witness :
    ShoppingCart.add_item ⟨[itemApple]⟩ itemApple
      = (⟨[itemApple]⟩, some Err.ItemAlreadyExistsError)
    ∧ ShoppingCart.add_item ⟨[itemApple]⟩ itemBread
      = (⟨[itemApple] ++ [itemBread]⟩, none) :=
  ⟨(cart_add_item_spec ⟨[itemApple]⟩ itemApple).1 (by decide),
   (cart_add_item_spec ⟨[itemApple]⟩ itemBread).2 (by decide)⟩

/-! ## C9: checkout and subtotal -/

/-- C9: `checkout` returns the cart subtotal, which is the sum of the price
fields of the items in the cart, `0` for an empty cart; and adding a single
item to an empty cart makes the subtotal that item's price. -/
theorem checkout_spec (s : Store) (i : Item) :
    (s.checkout).1 = s._shopping_cart.get_subtotal
    ∧ (s.checkout).1 = (s._shopping_cart.items.map (fun it => it.price)).sum
    ∧ (s._shopping_cart.items = [] → (s.checkout).1 = 0)
    ∧ ShoppingCart.get_subtotal ((ShoppingCart.add_item ⟨[]⟩ i).1) = i.price := by
  refine ⟨rfl, rfl, fun h => ?_, ?_⟩
  · simp [Store.checkout, ShoppingCart.get_subtotal, h]
  · simp [ShoppingCart.add_item, ShoppingCart.get_subtotal]

/-- Witness for C9: empty-cart checkout is 0 at a concrete store. -/
theorem checkout_spec_witness :
    (Store.checkout ⟨[itemApple], ⟨[]⟩⟩).1 = 0 :=
  (checkout_spec ⟨[itemApple], ⟨[]⟩⟩ itemApple).2.2.1 rfl

/-! ## C10: the queries do not modify the store -/

/-- C10: `search_by_name`, `search_by_hashtag`, `get_items` and `checkout`
leave the store — both the catalog list and the shopping cart — unchanged. -/
theorem queries_leave_store_unchanged (s : Store) (item_name hashtag : String) :
    (s.search_by_name item_name).2 = s ∧ (s.search_by_hashtag hashtag).2 = s
    ∧ s.get_items.2 = s ∧ s.checkout.2 = s :=
  ⟨rfl, rfl, rfl, rfl⟩

/-! ## C2: Store.add_item error behaviour -/

/-- C2: `Store.add_item` raises `ItemNotExistError` iff no catalog item's name
contains the fragment, `TooManyMatchesError` iff more than one does, and with a
unique match delegates to the cart: if the match is already in the cart the
call fails with `ItemAlreadyExistsError`, otherwise it appends the match. -/
theorem store_add_item_spec (s : Store) (frag : String) :
    ((s.add_item frag).2 = some Err.ItemNotExistError ↔
      ∀ it ∈ s._items, ¬ strIn frag it.name)
    ∧ ((s.add_item frag).2 = some Err.TooManyMatchesError ↔
      1 < (s._items.filter (fun it => strIn frag it.name)).length)
    ∧ (∀ m, s._items.filter (fun it => strIn frag it.name) = [m] →
        (m ∈ s._shopping_cart.items →
          s.add_item frag = (s, some Err.ItemAlreadyExistsError))
        ∧ (m ∉ s._shopping_cart.items →
          s.add_item frag =
            ({ s with _shopping_cart := ⟨s._shopping_cart.items ++ [m]⟩ }, none))) := by
  rcases h : s._items.filter (fun it => strIn frag it.name) with - | ⟨m, - | ⟨m₂, rest⟩⟩
  · have hall : ∀ it ∈ s._items, ¬ strIn frag it.name := List.filter_eq_nil_iff.mp h
    refine ⟨?_, ?_, ?_⟩
    · simp only [Store.add_item]
      rw [h]
      simpa using hall
    · simp only [Store.add_item]
      rw [h]
      simp
    · intro m hm
      rw [h] at hm
      exact absurd hm (by simp)
  · have hmem : m ∈ s._items ∧ strIn frag m.name := by
      have : m ∈ s._items.filter (fun it => strIn frag it.name) := by
        rw [h]; exact List.mem_cons_self _ _
      simpa using this
    refine ⟨?_, ?_, ?_⟩
    · refine iff_of_false ?_ ?_
      · simp only [Store.add_item]
        rw [h]
        intro he
        by_cases hc : m ∈ s._shopping_cart.items <;>
          simp [ShoppingCart.add_item, hc] at he
      · intro hall
        exact absurd hmem.2 (hall m hmem.1)
    · refine iff_of_false ?_ (by rw [h]; simp)
      simp only [Store.add_item]
      rw [h]
      intro he
      by_cases hc : m ∈ s._shopping_cart.items <;>
        simp [ShoppingCart.add_item, hc] at he
    · intro m' hm'
      rw [h] at hm'
      obtain rfl : m = m' := by simpa using hm'
      constructor <;> intro hc <;>
        simp [Store.add_item, h, ShoppingCart.add_item, hc]
  · refine ⟨?_, ?_, ?_⟩
    · refine iff_of_false ?_ ?_
      · simp only [Store.add_item]
        rw [h]
        simp
      · intro hall
        have hmem : m ∈ s._items ∧ strIn frag m.name := by
          have : m ∈ s._items.filter (fun it => strIn frag it.name) := by
            rw [h]; exact List.mem_cons_self _ _
          simpa using this
        exact absurd hmem.2 (hall m hmem.1)
    · refine iff_of_true ?_ (by rw [h]; simp)
      simp only [Store.add_item]
      rw [h]
    · intro m' hm'
      rw [h] at hm'
      simp at hm'

/-- Witness for C2: at a concrete store, adding by the unique fragment match
appends the item to the cart. -/
theorem store_add_item_spec_witness :
    Store.add_item sampleStore "Bre" =
      ({ sampleStore with _shopping_cart := ⟨sampleStore._shopping_cart.items ++ [itemBread]⟩ },
        none) :=
  ((store_add_item_spec sampleStore "Bre").2.2 itemBread (by decide)).2 (by decide)

/-! ## C3: Store.remove_item error behaviour -/

/-- Helper: `ShoppingCart.remove_item` removes the first match. -/
theorem cart_remove_first (frag : String) (l₁ : List Item) (m : Item) (l₂ : List Item)
    (hl₁ : ∀ x ∈ l₁, ¬ strIn frag x.name) (hm : strIn frag m.name) :
    ShoppingCart.remove_item ⟨l₁ ++ m :: l₂⟩ frag = (⟨l₁ ++ l₂⟩, none) := by
  have h₁ : l₁.find? (fun it => strIn frag it.name) = none :=
    List.find?_eq_none.mpr (by simpa using hl₁)
  have hfind : (l₁ ++ m :: l₂).find? (fun it => strIn frag it.name) = some m := by
    rw [List.find?_append, h₁, Option.none_or]
    exact @List.find?_cons_of_pos _ (fun it => strIn frag it.name) m l₂ hm
  have hmnot : m ∉ l₁ := fun hmem => hl₁ m hmem hm
  simp only [ShoppingCart.remove_item, hfind]
  rw [List.erase_append_right _ hmnot, List.erase_cons_head]

/-- Helper: `ShoppingCart.remove_item` fails on a cart with no match. -/
theorem cart_remove_none (frag : String) (cart : ShoppingCart)
    (hall : ∀ it ∈ cart.items, ¬ strIn frag it.name) :
    cart.remove_item frag = (cart, some Err.ItemNotExistError) := by
  simp only [ShoppingCart.remove_item, List.find?_eq_none.mpr (by simpa using hall)]

/-- C3: `Store.remove_item` pre-checks only the cart (more than one cart match
raises `TooManyMatchesError`, the zero-match case is not guarded) and then
delegates the same fragment to `ShoppingCart.remove_item`, which removes the
first cart item in cart order whose name contains the fragment, or raises
`ItemNotExistError` when no cart item matches; both failures leave the cart
unchanged. -/
theorem store_remove_item_spec (s : Store) (frag : String) :
    (1 < (s._shopping_cart.items.filter (fun it => strIn frag it.name)).length →
      s.remove_item frag = (s, some Err.TooManyMatchesError))
    ∧ (∀ cart : ShoppingCart, (∀ it ∈ cart.items, ¬ strIn frag it.name) →
      cart.remove_item frag = (cart, some Err.ItemNotExistError))
    ∧ (∀ l₁ (m : Item) l₂, (∀ x ∈ l₁, ¬ strIn frag x.name) → strIn frag m.name →
      ShoppingCart.remove_item ⟨l₁ ++ m :: l₂⟩ frag = (⟨l₁ ++ l₂⟩, none))
    ∧ ((∀ it ∈ s._shopping_cart.items, ¬ strIn frag it.name) →
      s.remove_item frag = (s, some Err.ItemNotExistError))
    ∧ (∀ l₁ (m : Item) l₂, s._shopping_cart.items = l₁ ++ m :: l₂ →
      (∀ x ∈ l₁, ¬ strIn frag x.name) → strIn frag m.name →
      ¬ 1 < (s._shopping_cart.items.filter (fun it => strIn frag it.name)).length →
      s.remove_item frag = ({ s with _shopping_cart := ⟨l₁ ++ l₂⟩ }, none)) := by
  refine ⟨?_, fun cart hall => cart_remove_none frag cart hall,
    fun l₁ m l₂ hl₁ hm => cart_remove_first frag l₁ m l₂ hl₁ hm, ?_, ?_⟩
  · intro hlen
    simp [Store.remove_item, hlen]
  · intro hall
    have hnot : ¬ 1 < (s._shopping_cart.items.filter (fun it => strIn frag it.name)).length := by
      rw [List.filter_eq_nil_iff.mpr (by simpa using hall)]
      simp
    simp only [Store.remove_item]
    rw [if_neg hnot, cart_remove_none frag s._shopping_cart hall]
  · intro l₁ m l₂ hcart hl₁ hm hnot
    simp only [Store.remove_item]
    rw [if_neg hnot]
    have : s._shopping_cart = ⟨l₁ ++ m :: l₂⟩ := by
      cases hs : s._shopping_cart with
      | mk items => rw [hs] at hcart; simpa using hcart
    rw [this, cart_remove_first frag l₁ m l₂ hl₁ hm]

/-- Witness for C3: at a concrete store, removing by a fragment matching the
single cart item deletes it; a non-matching fragment raises
`ItemNotExistError` leaving the store unchanged. -/
theorem store_remove_item_spec_witness :
    Store.remove_item sampleStore "Mil" = ({ sampleStore with _shopping_cart := ⟨[] ++ []⟩ }, none)
    ∧ Store.remove_item sampleStore "Bread" = (sampleStore, some Err.ItemNotExistError) :=
  ⟨(store_remove_item_spec sampleStore "Mil").2.2.2.2 [] itemMilk []
      (by decide) (by decide) (by decide) (by decide),
   (store_remove_item_spec sampleStore "Bread").2.2.2.1 (by decide)⟩

/-! ## C5: invariants and strong exception safety -/

/-- C5: assuming the cart has no duplicates and every cart item is in the
catalog, both `Store.add_item` and `Store.remove_item` preserve the catalog
list, the no-duplicates invariant and the cart-subset-of-catalog invariant,
and any failing call leaves the whole store unchanged. -/
theorem store_invariants (s : Store) (frag : String)
    (hnd : s._shopping_cart.items.Nodup)
    (hsub : ∀ x ∈ s._shopping_cart.items, x ∈ s._items) :
    ((s.add_item frag).1._items = s._items
      ∧ (s.add_item frag).1._shopping_cart.items.Nodup
      ∧ (∀ x ∈ (s.add_item frag).1._shopping_cart.items, x ∈ s._items)
      ∧ ((s.add_item frag).2.isSome → (s.add_item frag).1 = s))
    ∧ ((s.remove_item frag).1._items = s._items
      ∧ (s.remove_item frag).1._shopping_cart.items.Nodup
      ∧ (∀ x ∈ (s.remove_item frag).1._shopping_cart.items, x ∈ s._items)
      ∧ ((s.remove_item frag).2.isSome → (s.remove_item frag).1 = s)) := by
  constructor
  · rcases h : s._items.filter (fun it => strIn frag it.name) with - | ⟨m, - | ⟨m₂, rest⟩⟩
    · simp [Store.add_item, h, hnd, hsub]
      exact fun x hx => hsub x hx
    · have hmem : m ∈ s._items := by
        have : m ∈ s._items.filter (fun it => strIn frag it.name) := by
          rw [h]; exact List.mem_cons_self _ _
        exact (List.mem_filter.mp this).1
      by_cases hc : m ∈ s._shopping_cart.items
      · simp [Store.add_item, h, ShoppingCart.add_item, hc, hnd]
        exact fun x hx => hsub x hx
      · have hnd' : (s._shopping_cart.items ++ [m]).Nodup :=
          ((List.perm_append_singleton m s._shopping_cart.items).nodup_iff).mpr
            (List.nodup_cons.mpr ⟨hc, hnd⟩)
        simp [Store.add_item, h, ShoppingCart.add_item, hc, hnd']
        intro x hx
        rcases hx with hx | rfl
        · exact hsub x hx
        · exact hmem
    · simp [Store.add_item, h, hnd, hsub]
      exact fun x hx => hsub x hx
  · by_cases hlen : 1 < (s._shopping_cart.items.filter (fun it => strIn frag it.name)).length
    · simp [Store.remove_item, hlen, hnd, hsub]
      exact fun x hx => hsub x hx
    · rcases hfind : s._shopping_cart.items.find? (fun it => strIn frag it.name)
        with - | it
      · simp [Store.remove_item, hlen, ShoppingCart.remove_item, hfind, hnd, hsub]
        exact fun x hx => hsub x hx
      · simp [Store.remove_item, hlen, ShoppingCart.remove_item, hfind]
        refine ⟨hnd.erase it, fun x hx => hsub x (List.erase_subset _ _ hx)⟩

/-- Witness for C5 at a concrete store and fragment. -/
theorem store_invariants_witness :
    ((Store.add_item sampleStore "App").1._items = sampleStore._items
      ∧ (Store.add_item sampleStore "App").1._shopping_cart.items.Nodup
      ∧ (∀ x ∈ (Store.add_item sampleStore "App").1._shopping_cart.items,
          x ∈ sampleStore._items)
      ∧ ((Store.add_item sampleStore "App").2.isSome →
          (Store.add_item sampleStore "App").1 = sampleStore))
    ∧ ((Store.remove_item sampleStore "App").1._items = sampleStore._items
      ∧ (Store.remove_item sampleStore "App").1._shopping_cart.items.Nodup
      ∧ (∀ x ∈ (Store.remove_item sampleStore "App").1._shopping_cart.items,
          x ∈ sampleStore._items)
      ∧ ((Store.remove_item sampleStore "App").2.isSome →
          (Store.remove_item sampleStore "App").1 = sampleStore)) :=
  store_invariants sampleStore "App" (by decide) (by decide)

/-! ## C6: add then remove round-trip -/

/-- C6: if the cart is a subset of the catalog and `Store.add_item frag`
succeeds, then `Store.remove_item frag` on the resulting store succeeds and
restores the store (catalog and cart) exactly. -/
theorem add_remove_round_trip (s : Store) (frag : String)
    (hsub : ∀ x ∈ s._shopping_cart.items, x ∈ s._items)
    (hsucc : (s.add_item frag).2 = none) :
    Store.remove_item (s.add_item frag).1 frag = (s, none) := by
  rcases h : s._items.filter (fun it => strIn frag it.name) with - | ⟨m, - | ⟨m₂, rest⟩⟩
  · simp [Store.add_item, h] at hsucc
  · by_cases hc : m ∈ s._shopping_cart.items
    · simp [Store.add_item, h, ShoppingCart.add_item, hc] at hsucc
    · have hm : strIn frag m.name := by
        have : m ∈ s._items.filter (fun it => strIn frag it.name) := by
          rw [h]; exact List.mem_cons_self _ _
        exact of_decide_eq_true (by simpa using (List.mem_filter.mp this).2)
      have hcartno : ∀ x ∈ s._shopping_cart.items, ¬ strIn frag x.name := by
        intro x hx hpx
        have : x ∈ s._items.filter (fun it => strIn frag it.name) :=
          List.mem_filter.mpr ⟨hsub x hx, by simpa using hpx⟩
        rw [h] at this
        obtain rfl : x = m := by simpa using this
        exact hc hx
      have hadd : (s.add_item frag).1 =
          { s with _shopping_cart := ⟨s._shopping_cart.items ++ [m]⟩ } := by
        simp [Store.add_item, h, ShoppingCart.add_item, hc]
      have hfilter : (s._shopping_cart.items ++ [m]).filter
          (fun it => strIn frag it.name) = [m] := by
        rw [List.filter_append, List.filter_eq_nil_iff.mpr (by simpa using hcartno)]
        simp [hm]
      rw [hadd]
      simp only [Store.remove_item]
      rw [if_neg (by rw [hfilter]; simp)]
      have hrem := cart_remove_first frag s._shopping_cart.items m [] hcartno hm
      rw [show (⟨s._shopping_cart.items ++ m :: []⟩ : ShoppingCart)
            = (⟨s._shopping_cart.items ++ [m]⟩ : ShoppingCart) from rfl] at hrem
      rw [hrem]
      simp
  · simp [Store.add_item, h] at hsucc

/-- Witness for C6 at a concrete store and fragment. -/
theorem add_remove_round_trip_witness :
    Store.remove_item (Store.add_item sampleStore "Bre").1 "Bre" = (sampleStore, none) :=
  add_remove_round_trip sampleStore "Bre" (by decide) (by decide)

/-! ## Generic lemmas about stable sorting -/

/-- In any list, two distinct members occur in one order or the other. -/
theorem pair_sublist_or {α : Type} {x y : α} :
    ∀ {l : List α}, x ∈ l → y ∈ l → x ≠ y →
      [x, y].Sublist l ∨ [y, x].Sublist l := by
  intro l hx hy hne
  induction l with
  | nil => cases hx
  | cons a t ih =>
    rcases List.mem_cons.mp hx with rfl | hx'
    · rcases List.mem_cons.mp hy with rfl | hy'
      · exact absurd rfl hne
      · exact Or.inl ((List.singleton_sublist.mpr hy').cons₂ _)
    · rcases List.mem_cons.mp hy with rfl | hy'
      · exact Or.inr ((List.singleton_sublist.mpr hx').cons₂ _)
      · rcases ih hx' hy' with h | h
        · exact Or.inl (h.cons _)
        · exact Or.inr (h.cons _)

/-- In a duplicate-free list, two distinct members cannot occur in both
orders. -/
theorem not_pair_sublist_both {α : Type} {x y : α} (hne : x ≠ y) :
    ∀ {l : List α}, l.Nodup → [x, y].Sublist l → [y, x].Sublist l → False := by
  intro l
  induction l with
  | nil =>
    intro _ h1 _
    rw [List.sublist_nil] at h1
    cases h1
  | cons a t ih =>
    intro hnd h1 h2
    cases h1 with
    | cons _ h1' =>
      cases h2 with
      | cons _ h2' => exact ih (List.nodup_cons.mp hnd).2 h1' h2'
      | cons₂ _ h2' =>
        exact (List.nodup_cons.mp hnd).1 (h1'.subset (by simp))
    | cons₂ _ h1' =>
      cases h2 with
      | cons _ h2' =>
        exact (List.nodup_cons.mp hnd).1 (h2'.subset (by simp))
      | cons₂ _ h2' =>
        exact hne rfl

/-- Sorted permutations agree, given antisymmetry of the order on the members
of the list. -/
theorem eq_of_perm_of_pairwise {α : Type} {r : α → α → Prop} {l₁ l₂ : List α}
    (hp : l₁.Perm l₂) (hs₁ : l₁.Pairwise r) (hs₂ : l₂.Pairwise r) :
    (∀ a ∈ l₁, ∀ b ∈ l₁, r a b → r b a → a = b) → l₁ = l₂ := by
  induction hs₁ generalizing l₂ with
  | nil => exact fun _ => hp.nil_eq
  | @cons a t₁ h₁ hs₁' ih =>
    intro anti
    have ha : a ∈ l₂ := hp.subset (List.mem_cons_self _ _)
    obtain ⟨u₂, v₂, rfl⟩ := List.append_of_mem ha
    have hp' : t₁.Perm (u₂ ++ v₂) := (List.perm_cons a).1 (hp.trans List.perm_middle)
    have anti' : ∀ x ∈ t₁, ∀ y ∈ t₁, r x y → r y x → x = y := fun x hx y hy =>
      anti x (List.mem_cons_of_mem _ hx) y (List.mem_cons_of_mem _ hy)
    obtain rfl : t₁ = u₂ ++ v₂ := ih hp' (hs₂.sublist (by simp)) anti'
    have hall : ∀ x ∈ u₂, x = a := by
      intro x hx
      have hxa : r x a := (List.pairwise_append.mp hs₂).2.2 x hx a (List.mem_cons_self _ _)
      have hax : r a x := h₁ x (List.mem_append_left _ hx)
      exact anti x (List.mem_cons_of_mem _ (List.mem_append_left _ hx)) a
        (List.mem_cons_self _ _) hxa hax
    have key : a :: u₂ = u₂ ++ [a] := by
      have hu : u₂ = List.replicate u₂.length a := List.eq_replicate_length.mpr hall
      rw [hu, ← List.replicate_succ, List.replicate_succ']
    calc a :: (u₂ ++ v₂) = (a :: u₂) ++ v₂ := rfl
      _ = (u₂ ++ [a]) ++ v₂ := by rw [key]
      _ = u₂ ++ a :: v₂ := by rw [List.append_assoc]; rfl

/-- Transitivity of `lexComp`. -/
theorem lexComp_trans {α : Type} {p q : α → α → Bool}
    (tp : ∀ a b c, p a b → p b c → p a c)
    (tq : ∀ a b c, q a b → q b c → q a c) :
    ∀ a b c, lexComp p q a b → lexComp p q b c → lexComp p q a c := by
  intro a b c hab hbc
  have pab : p a b = true := by
    by_cases h : (p a b && p b a) = true
    · exact (Bool.and_eq_true_iff.mp h).1
    · rw [lexComp, if_neg h] at hab; exact hab
  have pbc : p b c = true := by
    by_cases h : (p b c && p c b) = true
    · exact (Bool.and_eq_true_iff.mp h).1
    · rw [lexComp, if_neg h] at hbc; exact hbc
  have pac : p a c = true := tp a b c pab pbc
  by_cases hca : p c a = true
  · have pcb : p c b = true := tp c a b hca pab
    have pba : p b a = true := tp b c a pbc hca
    rw [lexComp, if_pos (by simp [pab, pba])] at hab
    rw [lexComp, if_pos (by simp [pbc, pcb])] at hbc
    rw [lexComp, if_pos (by simp [pac, hca])]
    exact tq a b c hab hbc
  · rw [lexComp, if_neg (by simp [hca])]
    exact pac

/-- Totality of `lexComp`. -/
theorem lexComp_total {α : Type} {p q : α → α → Bool}
    (ttp : ∀ a b, p a b || p b a) (ttq : ∀ a b, q a b || q b a) :
    ∀ a b, lexComp p q a b || lexComp p q b a := by
  intro a b
  by_cases hab : p a b = true <;> by_cases hba : p b a = true
  · rw [lexComp]
    rw [if_pos (by simp [hab, hba])]
    rw [lexComp, if_pos (by simp [hab, hba])]
    exact ttq a b
  · rw [lexComp, if_neg (by simp [hba]), hab]
    simp
  · rw [lexComp, if_neg (by simp [hab])]
    rw [lexComp, if_neg (by simp [hab]), hba]
    simp
  · have := ttp a b
    simp [hab, hba] at this

/-- A stable sort by a secondary comparator followed by a stable sort by a
primary comparator equals a single stable sort by the lexicographic
combination of the two, for transitive and total comparators. -/
theorem mergeSort_two_pass {α : Type} (le₁ le₂ : α → α → Bool)
    (t1 : ∀ a b c, le₁ a b → le₁ b c → le₁ a c) (tot1 : ∀ a b, le₁ a b || le₁ b a)
    (t2 : ∀ a b c, le₂ a b → le₂ b c → le₂ a c) (tot2 : ∀ a b, le₂ a b || le₂ b a)
    (l : List α) :
    (l.mergeSort le₁).mergeSort le₂ = l.mergeSort (lexComp le₂ le₁) := by
  have t2' : ∀ a b c : Nat × α, le₂ a.2 b.2 → le₂ b.2 c.2 → le₂ a.2 c.2 :=
    fun a b c => t2 a.2 b.2 c.2
  have tot2' : ∀ a b : Nat × α, le₂ a.2 b.2 || le₂ b.2 a.2 := fun a b => tot2 a.2 b.2
  have lt : ∀ a b c, lexComp le₂ le₁ a b → lexComp le₂ le₁ b c → lexComp le₂ le₁ a c :=
    lexComp_trans t2 t1
  have ltot : ∀ a b, lexComp le₂ le₁ a b || lexComp le₂ le₁ b a :=
    lexComp_total tot2 tot1
  have hmapnd : (l.enum.map Prod.fst).Nodup := by
    rw [List.enum_map_fst]; exact List.nodup_range _
  have hnodupE : l.enum.Nodup := hmapnd.of_map
  have hAnd : (l.enum.mergeSort (List.enumLE le₁)).Nodup :=
    ((List.mergeSort_perm l.enum (List.enumLE le₁)).nodup_iff).mpr hnodupE
  have hApw : (l.enum.mergeSort (List.enumLE le₁)).Pairwise
      (fun x y => List.enumLE le₁ x y = true) :=
    List.sorted_mergeSort (List.enumLE_trans t1) (List.enumLE_total tot1) l.enum
  have hL'nd : ((l.enum.mergeSort (List.enumLE le₁)).mergeSort
      (fun x y => le₂ x.2 y.2)).Nodup :=
    ((List.mergeSort_perm _ _).nodup_iff).mpr hAnd
  have hL'pw : ((l.enum.mergeSort (List.enumLE le₁)).mergeSort
      (fun x y => le₂ x.2 y.2)).Pairwise (fun x y => le₂ x.2 y.2 = true) :=
    List.sorted_mergeSort t2' tot2' _
  have key : (l.enum.mergeSort (List.enumLE le₁)).mergeSort (fun x y => le₂ x.2 y.2)
      = l.enum.mergeSort (List.enumLE (lexComp le₂ le₁)) := by
    have hLHSpw : ((l.enum.mergeSort (List.enumLE le₁)).mergeSort
        (fun x y => le₂ x.2 y.2)).Pairwise
        (fun x y => List.enumLE (lexComp le₂ le₁) x y = true) := by
      rw [List.pairwise_iff_forall_sublist]
      intro x y hsub
      have hxy2 : le₂ x.2 y.2 = true := List.pairwise_iff_forall_sublist.mp hL'pw hsub
      have hne : x ≠ y := by
        have hnd2 : ([x, y] : List (Nat × α)).Nodup := hL'nd.sublist hsub
        simp only [List.nodup_cons, List.mem_singleton] at hnd2
        exact hnd2.1
      by_cases hyx2 : le₂ y.2 x.2 = true
      · have hgoal : List.enumLE (lexComp le₂ le₁) x y = List.enumLE le₁ x y := by
          simp only [List.enumLE, lexComp, hxy2, hyx2]
          simp
        rw [hgoal]
        have hxA : x ∈ l.enum.mergeSort (List.enumLE le₁) :=
          List.mem_mergeSort.mp (hsub.subset (by simp))
        have hyA : y ∈ l.enum.mergeSort (List.enumLE le₁) :=
          List.mem_mergeSort.mp (hsub.subset (by simp))
        rcases pair_sublist_or hxA hyA hne with h | h
        · exact List.pairwise_iff_forall_sublist.mp hApw h
        · exfalso
          have hsub' : [y, x].Sublist ((l.enum.mergeSort (List.enumLE le₁)).mergeSort
              (fun x y => le₂ x.2 y.2)) :=
            List.pair_sublist_mergeSort t2' tot2' hyx2 h
          exact not_pair_sublist_both hne hL'nd hsub hsub'
      · simp only [List.enumLE, lexComp, hxy2, hyx2]
        simp
    have hRHSpw : (l.enum.mergeSort (List.enumLE (lexComp le₂ le₁))).Pairwise
        (fun x y => List.enumLE (lexComp le₂ le₁) x y = true) :=
      List.sorted_mergeSort (List.enumLE_trans lt) (List.enumLE_total ltot) l.enum
    have hperm : ((l.enum.mergeSort (List.enumLE le₁)).mergeSort
        (fun x y => le₂ x.2 y.2)).Perm
        (l.enum.mergeSort (List.enumLE (lexComp le₂ le₁))) :=
      ((List.mergeSort_perm _ _).trans (List.mergeSort_perm _ _)).trans
        (List.mergeSort_perm _ _).symm
    refine eq_of_perm_of_pairwise hperm hLHSpw hRHSpw ?_
    intro x hx y hy hxy hyx
    have hxE : x ∈ l.enum :=
      List.mem_mergeSort.mp (List.mem_mergeSort.mp hx)
    have hyE : y ∈ l.enum :=
      List.mem_mergeSort.mp (List.mem_mergeSort.mp hy)
    simp only [List.enumLE] at hxy hyx
    by_cases h12 : lexComp le₂ le₁ x.2 y.2 = true
      <;> by_cases h21 : lexComp le₂ le₁ y.2 x.2 = true
    · rw [if_pos h12, if_pos h21] at hxy
      rw [if_pos h21, if_pos h12] at hyx
      have hfst : x.1 = y.1 :=
        Nat.le_antisymm (of_decide_eq_true hxy) (of_decide_eq_true hyx)
      exact List.inj_on_of_nodup_map hmapnd hxE hyE hfst
    · rw [if_neg h21] at hyx
      exact absurd hyx (by simp)
    · rw [if_neg h12] at hxy
      exact absurd hxy (by simp)
    · rw [if_neg h12] at hxy
      exact absurd hxy (by simp)
  calc (l.mergeSort le₁).mergeSort le₂
      = ((l.enum.mergeSort (List.enumLE le₁)).map (·.2)).mergeSort le₂ := by
        rw [List.mergeSort_enum]
    _ = ((l.enum.mergeSort (List.enumLE le₁)).mergeSort
          (fun x y => le₂ x.2 y.2)).map (·.2) :=
        (@List.map_mergeSort _ _ (fun x y => le₂ x.2 y.2) le₂ (fun x => x.2)
          (l.enum.mergeSort (List.enumLE le₁)) (fun a _ b _ => rfl)).symm
    _ = (l.enum.mergeSort (List.enumLE (lexComp le₂ le₁))).map (·.2) := by rw [key]
    _ = l.mergeSort (lexComp le₂ le₁) := List.mergeSort_enum

/-! ## The ranking pipeline -/

/-- Skipping the hashtags absent from the cart does not change the sum of
counts, since absent hashtags count 0. -/
theorem rate_eq_filtered (L : List String) (hs : List String) :
    ((hs.filter (fun tag => L.contains tag)).map (fun tag => L.count tag)).sum
      = (hs.map (fun tag => L.count tag)).sum := by
  induction hs with
  | nil => rfl
  | cons t rest ih =>
    by_cases h : L.contains t = true
    · simp only [List.filter_cons, h, if_pos, List.map_cons, List.sum_cons, ih]
    · have hz : L.count t = 0 := by
        rw [List.count_eq_zero]
        simpa using h
      simp only [List.filter_cons, h, Bool.false_eq_true, if_neg, not_false_iff,
        List.map_cons, List.sum_cons, ih, hz, Nat.zero_add]

/-- `compute_rate` pairs each item with its `rate`. -/
theorem compute_rate_eq (s : Store) (L : List Item) :
    s.compute_rate L = L.map (fun it => (s.rate it, it)) := by
  unfold Store.compute_rate Store.rate
  exact List.map_congr_left fun it _ => by rw [rate_eq_filtered]

/-- `sort_by_rate` is the two-pass stable sort on items: stable sort by name
ascending, then stable sort by rate descending. -/
theorem sort_by_rate_two_pass (s : Store) (l : List Item) :
    s.sort_by_rate l
      = (l.mergeSort (fun a b => decide (a.name ≤ b.name))).mergeSort
          (fun a b => decide (s.rate b ≤ s.rate a)) := by
  show ((s.compute_rate (l.mergeSort fun a b => decide (a.name ≤ b.name))).mergeSort
      (fun t u => decide (u.1 ≤ t.1))).map (fun t => t.2)
    = (l.mergeSort (fun a b => decide (a.name ≤ b.name))).mergeSort
        (fun a b => decide (s.rate b ≤ s.rate a))
  rw [compute_rate_eq]
  rw [← @List.map_mergeSort _ _ (fun a b => decide (s.rate b ≤ s.rate a))
    (fun t u => decide (u.1 ≤ t.1)) (fun it => (s.rate it, it))
    (l.mergeSort (fun a b => decide (a.name ≤ b.name))) (fun a _ b _ => rfl)]
  rw [List.map_map]
  exact List.map_id _

/-- Transitivity of the composite comparator `rankLE`. -/
theorem rankLE_trans (s : Store) :
    ∀ a b c, s.rankLE a b → s.rankLE b c → s.rankLE a c := by
  intro a b c hab hbc
  simp only [Store.rankLE, Bool.or_eq_true, Bool.and_eq_true, decide_eq_true_eq] at *
  rcases hab with h | ⟨h1, h2⟩ <;> rcases hbc with h' | ⟨h1', h2'⟩
  · exact Or.inl (lt_trans h' h)
  · exact Or.inl (h1' ▸ h)
  · exact Or.inl (h1 ▸ h')
  · exact Or.inr ⟨h1.trans h1', le_trans h2 h2'⟩

/-- Totality of the composite comparator `rankLE`. -/
theorem rankLE_total (s : Store) : ∀ a b, s.rankLE a b || s.rankLE b a := by
  intro a b
  simp only [Store.rankLE, Bool.or_eq_true, Bool.and_eq_true, decide_eq_true_eq]
  rcases Nat.lt_trichotomy (s.rate a) (s.rate b) with h | h | h
  · exact Or.inr (Or.inl h)
  · rcases le_total a.name b.name with hn | hn
    · exact Or.inl (Or.inr ⟨h, hn⟩)
    · exact Or.inr (Or.inr ⟨h.symm, hn⟩)
  · exact Or.inl (Or.inl h)

/-- The lexicographic combination of the two passes is the composite
comparator. -/
theorem lexComp_eq_rankLE (s : Store) :
    lexComp (fun a b : Item => decide (s.rate b ≤ s.rate a))
      (fun a b : Item => decide (a.name ≤ b.name)) = s.rankLE := by
  funext a b
  simp only [lexComp, Store.rankLE]
  rcases Nat.lt_trichotomy (s.rate a) (s.rate b) with h | h | h
  · have h1 : decide (s.rate b ≤ s.rate a) = false := by
      simp [Nat.not_le.mpr h]
    have h2 : decide (s.rate b < s.rate a) = false := by
      simp [Nat.le_of_lt h]
    have h3 : decide (s.rate a = s.rate b) = false := by
      simp [Nat.ne_of_lt h]
    simp [h1, h2, h3]
  · have h1 : decide (s.rate b ≤ s.rate a) = true := by simp [h.le, h.ge]
    have h1' : decide (s.rate a ≤ s.rate b) = true := by simp [h.le]
    have h2 : decide (s.rate b < s.rate a) = false := by simp [h.le, h]
    have h3 : decide (s.rate a = s.rate b) = true := by simp [h]
    simp [h1, h1', h2, h3]
  · have h1 : decide (s.rate b ≤ s.rate a) = true := by simp [Nat.le_of_lt h]
    have h1' : decide (s.rate a ≤ s.rate b) = false := by
      simp [Nat.not_le.mpr h]
    have h2 : decide (s.rate b < s.rate a) = true := by simp [h]
    simp [h1, h1', h2]

/-- `sort_by_rate` is the single stable sort by the composite comparator. -/
theorem sort_by_rate_eq (s : Store) (l : List Item) :
    s.sort_by_rate l = l.mergeSort (s.rankLE) := by
  rw [sort_by_rate_two_pass,
    mergeSort_two_pass (fun a b : Item => decide (a.name ≤ b.name))
      (fun a b : Item => decide (s.rate b ≤ s.rate a))
      (fun a b c hab hbc => by
        simp only [decide_eq_true_eq] at *; exact le_trans hab hbc)
      (fun a b => by
        simp only [Bool.or_eq_true, decide_eq_true_eq]; exact le_total a.name b.name)
      (fun a b c hab hbc => by
        simp only [decide_eq_true_eq] at *; exact le_trans hbc hab)
      (fun a b => by
        simp only [Bool.or_eq_true, decide_eq_true_eq]
        exact (Nat.le_total (s.rate b) (s.rate a)))
      l, lexComp_eq_rankLE]

/-! ## C1, C7, C4: the ranked search results -/

/-- C1: the ranking used by both search operations returns the candidates in
order of rate descending, breaking ties by name ascending, where an item's
rate is the sum over its own hashtag entries (repeats counted) of that
hashtag's number of occurrences among the hashtags of the cart items. -/
theorem sort_by_rate_ranks (s : Store) (l : List Item) :
    (s.sort_by_rate l).Perm l
    ∧ (s.sort_by_rate l).Pairwise (fun a b =>
        s.rate b < s.rate a ∨ (s.rate a = s.rate b ∧ a.name ≤ b.name)) := by
  constructor
  · rw [sort_by_rate_eq]
    exact List.mergeSort_perm l _
  · rw [sort_by_rate_eq]
    have hpw := List.sorted_mergeSort (rankLE_trans s) (rankLE_total s) l
    exact hpw.imp (fun h => by
      simpa only [Store.rankLE, Bool.or_eq_true, Bool.and_eq_true,
        decide_eq_true_eq] using h)

/-- C7: the two-pass implementation of `sort_by_rate` — a stable sort by name
ascending followed by a stable sort by rate descending — produces exactly the
single stable sort by the composite key (rate descending, name ascending). -/
theorem sort_by_rate_two_pass_eq_composite (s : Store) (l : List Item) :
    s.sort_by_rate l
      = (l.mergeSort (fun a b => decide (a.name ≤ b.name))).mergeSort
          (fun a b => decide (s.rate b ≤ s.rate a))
    ∧ s.sort_by_rate l = l.mergeSort (s.rankLE) :=
  ⟨sort_by_rate_two_pass s l, sort_by_rate_eq s l⟩

/-- C4: `search_by_name` returns exactly the catalog items whose name contains
the fragment and that are not in the cart; `search_by_hashtag` returns exactly
the catalog items whose hashtag list contains the tag and that are not in the
cart; with the empty fragment, `search_by_name` returns every catalog item not
in the cart. -/
theorem search_spec (s : Store) (item_name hashtag : String) :
    ((s.search_by_name item_name).1.Perm
      (s._items.filter (fun it =>
        strIn item_name it.name && !(s._shopping_cart.items.contains it))))
    ∧ (∀ x, x ∈ (s.search_by_name item_name).1 ↔
        x ∈ s._items ∧ strIn item_name x.name ∧ x ∉ s._shopping_cart.items)
    ∧ ((s.search_by_hashtag hashtag).1.Perm
      (s._items.filter (fun it =>
        it.hashtags.contains hashtag && !(s._shopping_cart.items.contains it))))
    ∧ (∀ x, x ∈ (s.search_by_hashtag hashtag).1 ↔
        x ∈ s._items ∧ hashtag ∈ x.hashtags ∧ x ∉ s._shopping_cart.items)
    ∧ (∀ x, x ∈ (s.search_by_name "").1 ↔
        x ∈ s._items ∧ x ∉ s._shopping_cart.items) := by
  have hperm : ∀ L : List Item, (s.sort_by_rate L).Perm L := fun L => by
    rw [sort_by_rate_eq]
    exact List.mergeSort_perm L _
  have hname : ∀ n x, (x ∈ (s.search_by_name n).1 ↔
      x ∈ s._items ∧ strIn n x.name ∧ x ∉ s._shopping_cart.items) := by
    intro n x
    show x ∈ s.sort_by_rate (s._items.filter (fun it =>
      strIn n it.name && !(s._shopping_cart.items.contains it))) ↔ _
    rw [(hperm _).mem_iff]
    simp [List.mem_filter, List.contains, and_assoc]
  refine ⟨hperm _, hname item_name, hperm _, ?_, fun x => ?_⟩
  · intro x
    show x ∈ s.sort_by_rate (s._items.filter (fun it =>
      it.hashtags.contains hashtag && !(s._shopping_cart.items.contains it))) ↔ _
    rw [(hperm _).mem_iff]
    simp [List.mem_filter, List.contains, and_assoc]
  · rw [hname "" x]
    simp [strIn_empty_left]

end SimpleStore
